import Mathlib

/-!
Verification of the mention aggregation and alerting pipeline.

This file gives a shallow embedding of the core data-processing functions of
the repository and proves the specified properties about them:

* `deduplicate_mentions`, `validate_mention_data`, `sort_mentions_by_timestamp`
  (from `src/scrapers/data_processor.py`),
* `calculate_sentiment_threshold` (from `src/analyze/sentiment.py`),
* the positional sentiment merge loop (from `src/run_all.py`),
* `format_data_for_sheets` (from `src/store/sheets.py`).

Modelling conventions:

* Python strings are `String`/`List Char` (one `Char` per code point, so
  Python `len` is `List.length`).
* Python dictionaries holding mention records become the `Mention` structure;
  a field that may be missing from the dictionary is an `Option` (with `none`
  meaning the key is absent, so `dict.get(k, d)` is `Option.getD`).
* Python floats are modelled as rationals `ℚ` (exact arithmetic; the sentiment
  scores and thresholds used by the code are small decimal literals for which
  the float and rational comparisons agree).
* `datetime.fromisoformat` is modelled by the executable parser `parseIso`
  below, covering the pre-3.11 grammar `YYYY-MM-DD[<sep>HH[:MM[:SS[.fff[fff]]]]
  [±HH:MM]]` that the code relies on (the code replaces a literal `Z` with
  `+00:00` before parsing).  A parsed value keeps its components plus the
  optional UTC offset; comparing an offset-naive and an offset-aware datetime
  raises `TypeError` in Python, which matters for the sorting claims.
* The MD5 content hash used for deduplication is modelled by the normalized
  text itself: the code only ever compares hashes for equality, and the hash
  is deterministic, so an injective model is faithful.
* Python's `sorted` is a stable sort; it is modelled by `List.insertionSort`
  with a reflexive total comparison, which is stable in the same sense.
-/

/-! ## Character and string helpers -/

/-- Characters stripped by Python's `str.strip()`. -/
def isPySpace (c : Char) : Bool :=
  c = ' ' || c = '\t' || c = '\n' || c = '\x0d' || c = '\x0b' || c = '\x0c'

/-- Python `str.strip()` on a list of characters. -/
def pyStripL (cs : List Char) : List Char :=
  ((cs.dropWhile isPySpace).reverse.dropWhile isPySpace).reverse

/-- Python `str.lower()` (ASCII case folding, as used by the code's data). -/
def pyLowerL (cs : List Char) : List Char :=
  cs.map Char.toLower

/-- Python `str.replace('Z', '+00:00')`: every occurrence of `Z` is replaced. -/
def replaceZL : List Char → List Char
  | [] => []
  | c :: cs =>
    if c = 'Z' then '+' :: '0' :: '0' :: ':' :: '0' :: '0' :: replaceZL cs
    else c :: replaceZL cs

/-- Does `needle` occur at the head of `hay`? -/
def startsWithL : List Char → List Char → Bool
  | [], _ => true
  | _ :: _, [] => false
  | a :: as, b :: bs => a = b && startsWithL as bs

/-- Python's `needle in hay` substring test. -/
def containsSeg (needle : List Char) : List Char → Bool
  | [] => startsWithL needle []
  | c :: cs => startsWithL needle (c :: cs) || containsSeg needle cs

/-! ## A model of `datetime.fromisoformat` -/

/-- The result of parsing an ISO-8601 timestamp: the broken-down components
plus the optional UTC offset in minutes (`none` = offset-naive). -/
structure PyDateTime where
  year : Nat
  month : Nat
  day : Nat
  hour : Nat
  minute : Nat
  second : Nat
  micro : Nat
  tzMin : Option Int
deriving DecidableEq

/-- Read exactly `n` decimal digits, most significant first. -/
def readDigits : Nat → Nat → List Char → Option (Nat × List Char)
  | 0, acc, cs => some (acc, cs)
  | n + 1, acc, c :: cs =>
    if '0' ≤ c ∧ c ≤ '9' then readDigits n (acc * 10 + (c.toNat - 48)) cs
    else none
  | _ + 1, _, [] => none

/-- Consume one expected character. -/
def expectChar (c : Char) : List Char → Option (List Char)
  | d :: cs => if d = c then some cs else none
  | [] => none

/-- Length of a month, with the Gregorian leap-year rule (as `datetime`). -/
def daysInMonth (y m : Nat) : Nat :=
  let leap : Bool := (y % 4 = 0 && y % 100 ≠ 0) || y % 400 = 0
  if m = 2 then (if leap then 29 else 28)
  else if m = 4 || m = 6 || m = 9 || m = 11 then 30
  else 31

/-- Parse the mandatory `YYYY-MM-DD` date part with `datetime`'s range checks
(`MINYEAR = 1`; four digits bound the year by 9999). -/
def parseDatePart (cs : List Char) : Option ((Nat × Nat × Nat) × List Char) := do
  let (y, cs) ← readDigits 4 0 cs
  let cs ← expectChar '-' cs
  let (m, cs) ← readDigits 2 0 cs
  let cs ← expectChar '-' cs
  let (d, cs) ← readDigits 2 0 cs
  if 1 ≤ y ∧ 1 ≤ m ∧ m ≤ 12 ∧ 1 ≤ d ∧ d ≤ daysInMonth y m then
    some ((y, m, d), cs)
  else none

/-- Parse the optional fractional-seconds part (exactly 3 or 6 digits),
returning microseconds. -/
def parseFracPart (cs : List Char) : Option (Nat × List Char) :=
  match cs with
  | '.' :: rest =>
    match readDigits 6 0 rest with
    | some (f, rest6) => some (f, rest6)
    | none =>
      match readDigits 3 0 rest with
      | some (f, rest3) => some (f * 1000, rest3)
      | none => none
  | _ => some (0, cs)

/-- Parse the optional `±HH:MM` offset; `none` input chars mean offset-naive. -/
def parseOffsetPart (cs : List Char) : Option (Option Int × List Char) :=
  match cs with
  | [] => some (none, [])
  | s :: rest =>
    if s = '+' ∨ s = '-' then do
      let (oh, rest) ← readDigits 2 0 rest
      let rest ← expectChar ':' rest
      let (om, rest) ← readDigits 2 0 rest
      if oh ≤ 23 ∧ om ≤ 59 then
        let mins : Int := (oh * 60 + om : Nat)
        some (some (if s = '-' then -mins else mins), rest)
      else none
    else none

/-- Parse the time-of-day part `HH[:MM[:SS[.ffffff]]]` followed by the
optional offset; the whole input must be consumed. -/
def parseTimePart (cs : List Char) : Option (Nat × Nat × Nat × Nat × Option Int) := do
  let (h, cs) ← readDigits 2 0 cs
  let (mi, s, us, cs) ←
    match cs with
    | ':' :: cs1 => do
      let (mi, cs2) ← readDigits 2 0 cs1
      match cs2 with
      | ':' :: cs3 => do
        let (s, cs4) ← readDigits 2 0 cs3
        let (us, cs5) ← parseFracPart cs4
        pure (mi, s, us, cs5)
      | _ => pure (mi, 0, 0, cs2)
    | _ => pure (0, 0, 0, cs)
  let (off, cs) ← parseOffsetPart cs
  if h ≤ 23 ∧ mi ≤ 59 ∧ s ≤ 59 ∧ cs = [] then
    some (h, mi, s, us, off)
  else none

/-- Model of Python's `datetime.fromisoformat` (pre-3.11 grammar).  The date
part is mandatory; any single character may separate date and time. -/
def parseIso (cs : List Char) : Option PyDateTime := do
  let ((y, m, d), rest) ← parseDatePart cs
  match rest with
  | [] => some ⟨y, m, d, 0, 0, 0, 0, none⟩
  | _sep :: rest1 => do
    let (h, mi, s, us, off) ← parseTimePart rest1
    some ⟨y, m, d, h, mi, s, us, off⟩

/-- Days since 0000-03-01 of a Gregorian civil date (Hinnant's algorithm,
specialised to years ≥ 1 so that all arithmetic stays in `Nat`). -/
def daysFromCivil (y m d : Nat) : Nat :=
  let yy := if m ≤ 2 then y - 1 else y
  let era := yy / 400
  let yoe := yy % 400
  let mp := (m + 9) % 12
  let doy := (153 * mp + 2) / 5 + d - 1
  let doe := yoe * 365 + yoe / 4 - yoe / 100 + doy
  era * 146097 + doe

/-- The naive clock reading of a parsed datetime, in microseconds. -/
def PyDateTime.naiveMicros (d : PyDateTime) : Nat :=
  (daysFromCivil d.year d.month d.day * 86400
    + d.hour * 3600 + d.minute * 60 + d.second) * 1000000 + d.micro

/-- The comparison key Python uses inside one awareness class: naive datetimes
compare by their components, aware ones by their UTC instant. -/
def PyDateTime.cmpKey (d : PyDateTime) : Int :=
  match d.tzMin with
  | none => (d.naiveMicros : Int)
  | some off => (d.naiveMicros : Int) - off * 60000000

/-! ## The `Mention` record -/

/-- A mention dictionary.  `none` models an absent key. -/
structure Mention where
  source : Option String := none
  id : Option String := none
  user : Option String := none
  username : Option String := none
  text : Option String := none
  content : Option String := none
  timestamp : Option String := none
  sentiment_label : Option String := none
  sentiment_score : Option ℚ := none
deriving DecidableEq

/-- Python `d.get(k, '')` for string fields. -/
def getS (o : Option String) : String :=
  o.getD ("")

/-- Python truthiness of an optional string: present and non-empty. -/
def truthy (o : Option String) : Bool :=
  match o with
  | none => false
  | some s => !decide (s.data = [])

/-- Model of `validate_mention_data` (`src/scrapers/data_processor.py`):
required fields present and non-empty, known source, parseable timestamp
(after replacing `Z` with `+00:00`), trimmed text length in [10, 5000]. -/
def validate_mention_data (m : Mention) : Bool :=
  truthy m.source && truthy m.id && truthy m.user && truthy m.text
    && truthy m.timestamp
    && (getS m.source == "twitter" || getS m.source == "facebook"
         || getS m.source == "google_play")
    && (parseIso (replaceZL (getS m.timestamp).data)).isSome
    && decide (10 ≤ (pyStripL (getS m.text).data).length)
    && decide ((pyStripL (getS m.text).data).length ≤ 5000)

/-! ## Deduplication (`deduplicate_mentions`) -/

/-- The identity key `f"{source}_{id}"`, as its character list. -/
def mentionKey (m : Mention) : List Char :=
  (getS m.source).data ++ '_' :: (getS m.id).data

/-- The content key: MD5 of `text.strip().lower()`, modelled injectively by
the normalized text itself. -/
def contentKey (m : Mention) : List Char :=
  pyLowerL (pyStripL (getS m.text).data)

/-- The synthetic-data markers recognized by the deduplicator. -/
def isSimulated (m : Mention) : Bool :=
  containsSeg ("sim_").data (getS m.id).data
    || containsSeg ("fb_sim_").data (getS m.id).data
    || containsSeg ("gp_sim_").data (getS m.id).data

/-- First-match lookup in the content-hash occurrence dictionary
(`seen_content_hashes.get(h, 0)`). -/
def lookupD : List (List Char × Nat) → List Char → Nat
  | [], _ => 0
  | (k, v) :: rest, h => if k = h then v else lookupD rest h

/-- Key-presence test (`h in seen_content_hashes`). -/
def hasH : List (List Char × Nat) → List Char → Bool
  | [], _ => false
  | (k, _) :: rest, h => k = h || hasH rest h

/-- Dictionary update `seen_content_hashes[h] = v` (the new binding shadows
any previous one). -/
def insertH (sh : List (List Char × Nat)) (h : List Char) (v : Nat) :
    List (List Char × Nat) :=
  (h, v) :: sh

/-- The main deduplication loop of `deduplicate_mentions`, carrying the
`seen_ids` set and the `seen_content_hashes` occurrence dictionary. -/
def dedupGo : List Mention → List (List Char) → List (List Char × Nat) → List Mention
  | [], _, _ => []
  | m :: rest, seen, sh =>
    if mentionKey m ∈ seen then dedupGo rest seen sh
    else if contentKey m = [] then
      (if validate_mention_data m then
        m :: dedupGo rest (mentionKey m :: seen) sh
      else dedupGo rest (mentionKey m :: seen) sh)
    else if isSimulated m then
      (if 2 ≤ lookupD sh (contentKey m) then
        dedupGo rest (mentionKey m :: seen) sh
      else if validate_mention_data m then
        m :: dedupGo rest (mentionKey m :: seen)
          (insertH sh (contentKey m) (lookupD sh (contentKey m) + 1))
      else
        dedupGo rest (mentionKey m :: seen)
          (insertH sh (contentKey m) (lookupD sh (contentKey m) + 1)))
    else
      (if hasH sh (contentKey m) then
        dedupGo rest (mentionKey m :: seen) sh
      else if validate_mention_data m then
        m :: dedupGo rest (mentionKey m :: seen) (insertH sh (contentKey m) 1)
      else
        dedupGo rest (mentionKey m :: seen) (insertH sh (contentKey m) 1))

/-- Model of `deduplicate_mentions` (`src/scrapers/data_processor.py`). -/
def deduplicate_mentions (l : List Mention) : List Mention :=
  dedupGo l [] []

/-! ## Timestamp sorting (`sort_mentions_by_timestamp`) -/

/-- The sort key computation `fromisoformat(x.get('timestamp',
'1970-01-01T00:00:00').replace('Z', '+00:00'))`. -/
def tsParse (m : Mention) : Option PyDateTime :=
  parseIso (replaceZL (m.timestamp.getD ("1970-01-01T00:00:00")).data)

/-- Did the timestamp parse to an offset-naive datetime? -/
def parsedNaive (m : Mention) : Bool :=
  match tsParse m with
  | some d => d.tzMin.isNone
  | none => false

/-- Did the timestamp parse to an offset-aware datetime? -/
def parsedAware (m : Mention) : Bool :=
  match tsParse m with
  | some d => d.tzMin.isSome
  | none => false

/-- The numeric sort key of a mention (only meaningful when all keys in the
list are in the same awareness class, exactly when Python can compare them). -/
def tsVal (m : Mention) : Int :=
  match tsParse m with
  | some d => d.cmpKey
  | none => 0

/-- Descending (newest first) comparison used with `reverse=True`. -/
def tsDescRel (a b : Mention) : Prop :=
  tsVal b ≤ tsVal a

instance : DecidableRel tsDescRel :=
  fun a b => inferInstanceAs (Decidable (tsVal b ≤ tsVal a))

instance : IsTotal Mention tsDescRel :=
  ⟨fun a b => le_total (tsVal b) (tsVal a)⟩

instance : IsTrans Mention tsDescRel :=
  ⟨fun _ _ _ h1 h2 => le_trans h2 h1⟩

/-- Ascending comparison used with `reverse=False`. -/
def tsAscRel (a b : Mention) : Prop :=
  tsVal a ≤ tsVal b

instance : DecidableRel tsAscRel :=
  fun a b => inferInstanceAs (Decidable (tsVal a ≤ tsVal b))

/-- Model of `sort_mentions_by_timestamp` (`src/scrapers/data_processor.py`).
Python computes every key first (any `ValueError`/`AttributeError` there is
caught and the original list returned), then runs a stable sort; if the keys
mix offset-naive and offset-aware datetimes, the first comparison between the
two classes raises `TypeError`, which the same handler turns into the
original list. Timsort compares every adjacent pair while detecting runs, so
a mixed list always raises. -/
def sort_mentions_by_timestamp (mentions : List Mention) (rev : Bool := true) :
    List Mention :=
  if mentions.any fun m => (tsParse m).isNone then mentions
  else if (mentions.any parsedAware) && (mentions.any parsedNaive) then mentions
  else if rev then List.insertionSort tsDescRel mentions
  else List.insertionSort tsAscRel mentions

/-! ## Sentiment threshold (`calculate_sentiment_threshold`) -/

/-- A mention counts toward the denominator iff `sentiment_label` is truthy
and `sentiment_score` is not `None`. -/
def countedB (m : Mention) : Bool :=
  truthy m.sentiment_label && m.sentiment_score.isSome

/-- A counted mention whose lower-cased label is `negative`. -/
def negativeB (m : Mention) : Bool :=
  countedB m && decide (pyLowerL (getS m.sentiment_label).data = ("negative").data)

/-- The denominator `total_mentions`. -/
def countedTotal (l : List Mention) : Nat :=
  (l.filter countedB).length

/-- The collected `negative_mentions`, in input order. -/
def negList (l : List Mention) : List Mention :=
  l.filter negativeB

/-- The sort key `x.get('sentiment_score', 0.0)`. -/
def scoreKey (m : Mention) : ℚ :=
  m.sentiment_score.getD 0

/-- Ascending-score comparison (most negative first). -/
def scoreAscRel (a b : Mention) : Prop :=
  scoreKey a ≤ scoreKey b

instance : DecidableRel scoreAscRel :=
  fun a b => inferInstanceAs (Decidable (scoreKey a ≤ scoreKey b))

instance : IsTotal Mention scoreAscRel :=
  ⟨fun a b => le_total (scoreKey a) (scoreKey b)⟩

instance : IsTrans Mention scoreAscRel :=
  ⟨fun _ _ _ h1 h2 => le_trans h1 h2⟩

/-- Model of `calculate_sentiment_threshold` (`src/analyze/sentiment.py`).
Returns `(threshold_crossed, negative_percentage, top_negative_mentions)`.
The division `negative_count / total_mentions` is written `mkRat` (exact
rational division of the two integers, kernel-computable); `mkRat a b` equals
`(a : ℚ) / (b : ℚ)`, see `Rat.mkRat_eq_div`. -/
def calculate_sentiment_threshold (l : List Mention)
    (threshold : ℚ := mkRat 1 5) : Bool × ℚ × List Mention :=
  if l = [] then (false, 0, [])
  else if countedTotal l = 0 then (false, 0, [])
  else
    let ratio : ℚ := mkRat ((negList l).length : Int) (countedTotal l)
    if threshold ≤ ratio then
      (true, ratio, (List.insertionSort scoreAscRel (negList l)).take 3)
    else (false, ratio, [])

/-! ## Positional sentiment merge (`main`, `src/run_all.py`, lines 128-150) -/

/-- One entry of the `sentiment_results` list. -/
structure SentimentResult where
  sentiment_label : Option String := none
  sentiment_score : Option ℚ := none
deriving DecidableEq

/-- Attach a sentiment result to a mention:
`analyzed_mention['sentiment_label'] = sd.get('sentiment_label', 'neutral')`
and likewise for the score. -/
def attachSentiment (m : Mention) (r : SentimentResult) : Mention :=
  { m with
    sentiment_label := some (r.sentiment_label.getD ("neutral")),
    sentiment_score := some (r.sentiment_score.getD (mkRat 1 2)) }

/-- The fallback for a mention beyond the end of `sentiment_results`. -/
def defaultSentiment (m : Mention) : Mention :=
  { m with
    sentiment_label := some ("neutral"),
    sentiment_score := some (mkRat 1 2) }

/-- The merge loop of `src/run_all.py`: the result at index `i` is attached
to the mention at index `i`; trailing mentions get the neutral default. -/
def merge_sentiment : List Mention → List SentimentResult → List Mention
  | [], _ => []
  | m :: ms, [] => defaultSentiment m :: merge_sentiment ms []
  | m :: ms, r :: rs => attachSentiment m r :: merge_sentiment ms rs

/-! ## Sheet row formatting (`format_data_for_sheets`, `src/store/sheets.py`) -/

/-- Decimal digit character. -/
def digitChar (n : Nat) : Char :=
  Char.ofNat (48 + n)

/-- Zero-padded two-digit rendering (fields are < 100 after parsing). -/
def pad2 (n : Nat) : List Char :=
  [digitChar (n / 10 % 10), digitChar (n % 10)]

/-- Zero-padded four-digit rendering (years are ≤ 9999 after parsing). -/
def pad4 (n : Nat) : List Char :=
  [digitChar (n / 1000 % 10), digitChar (n / 100 % 10),
   digitChar (n / 10 % 10), digitChar (n % 10)]

/-- Model of `dt.strftime('%Y-%m-%d %H:%M:%S UTC')`: the parsed components
are printed as-is (no timezone conversion) with a literal `UTC` suffix. -/
def renderDT (d : PyDateTime) : String :=
  String.mk (pad4 d.year ++ '-' :: pad2 d.month ++ '-' :: pad2 d.day
    ++ ' ' :: pad2 d.hour ++ ':' :: pad2 d.minute ++ ':' :: pad2 d.second
    ++ (" UTC").data)

/-- Round `num / den` (with `den > 0`) half to even, as Python's builtin
`round`, using only integer arithmetic. -/
def roundHalfEvenScaled (num den : ℤ) : ℤ :=
  let f := num.ediv den
  let r := num.emod den
  if 2 * r < den then f
  else if den < 2 * r then f + 1
  else if f % 2 = 0 then f else f + 1

/-- `round(x, 4)` scaled to an integer number of ten-thousandths: the value
rounded is `x * 10000 = (x.num * 10000) / x.den`. -/
def round4Int (q : ℚ) : ℤ :=
  roundHalfEvenScaled (q.num * 10000) (q.den : ℤ)

/-- Drop trailing zero characters. -/
def dropTrailingZeros (cs : List Char) : List Char :=
  (cs.reverse.dropWhile fun c => c = '0').reverse

/-- Render `k` ten-thousandths as Python's `str(float)` would show the
rounded value: shortest decimal form, at least one fractional digit. -/
def decOfNat4 (n : Nat) : String :=
  let ip := n / 10000
  let fd := dropTrailingZeros (pad4 (n % 10000))
  String.mk (Nat.toDigits 10 ip ++ '.' :: (if fd = [] then ['0'] else fd))

/-- Signed version of `decOfNat4`. -/
def decOfInt4 (k : ℤ) : String :=
  if k < 0 then String.mk ('-' :: (decOfNat4 k.natAbs).data)
  else decOfNat4 k.natAbs

/-- Column 1: the timestamp, reformatted only when it parses; `now` stands in
for `datetime.now().isoformat()` used when the key is absent. -/
def timestampCol (now : String) (m : Mention) : String :=
  match parseIso (replaceZL (m.timestamp.getD now).data) with
  | some d => renderDT d
  | none => m.timestamp.getD now

/-- The text after `str.replace`-collapsing newlines and stripping. -/
def cleanedText (m : Mention) : List Char :=
  pyStripL (((m.text.getD (m.content.getD (""))).data.map
    (fun c => if c = '\n' then ' ' else c)).map
    (fun c => if c = '\x0d' then ' ' else c))

/-- Column 5: text with newlines collapsed, stripped, truncated to 1000
characters plus an ellipsis; empty/missing text is passed through. -/
def textCol (m : Mention) : String :=
  if (m.text.getD (m.content.getD (""))).data = [] then
    m.text.getD (m.content.getD (""))
  else if 1000 < (cleanedText m).length then
    String.mk ((cleanedText m).take 1000 ++ ("...").data)
  else String.mk (cleanedText m)

/-- Column 7: `str(round(float(score), 4))` with the 0.5 default. -/
def scoreCol (m : Mention) : String :=
  decOfInt4 (round4Int (m.sentiment_score.getD (mkRat 1 2)))

/-- One formatted row of `format_data_for_sheets`. -/
def format_row (now : String) (m : Mention) : List String :=
  [timestampCol now m,
   m.source.getD ("unknown"),
   m.id.getD (""),
   m.user.getD (m.username.getD ("")),
   textCol m,
   m.sentiment_label.getD ("neutral"),
   scoreCol m]

/-- Model of `format_data_for_sheets` (`src/store/sheets.py`). -/
def format_data_for_sheets (now : String) (data : List Mention) :
    List (List String) :=
  data.map (format_row now)

/-- Decimal digit test. -/
def isDigitCh (c : Char) : Bool :=
  '0' ≤ c && c ≤ '9'

/-- Decidable check that a string has the shape `YYYY-MM-DD HH:MM:SS UTC`
(the rendering promised by the spec for the first column). -/
def isRenderedForm (s : String) : Bool :=
  match s.data with
  | [y1, y2, y3, y4, s1, a1, a2, s2, b1, b2, s3,
     c1, c2, s4, d1, d2, s5, e1, e2, s6, u1, u2, u3] =>
    isDigitCh y1 && isDigitCh y2 && isDigitCh y3 && isDigitCh y4 &&
      isDigitCh a1 && isDigitCh a2 && isDigitCh b1 && isDigitCh b2 &&
      isDigitCh c1 && isDigitCh c2 && isDigitCh d1 && isDigitCh d2 &&
      isDigitCh e1 && isDigitCh e2 &&
      (s1 == '-') && (s2 == '-') && (s3 == ' ') && (s4 == ':') &&
      (s5 == ':') && (s6 == ' ') && (u1 == 'U') && (u2 == 'T') && (u3 == 'C')
  | _ => false

/-! ## Concrete demonstration data -/

/-- A counted, non-negative sentiment-annotated mention. -/
def posMention : Mention :=
  { sentiment_label := some ("positive"), sentiment_score := some (mkRat 7 10) }

/-- A counted negative mention with a given score. -/
def negMention (q : ℚ) : Mention :=
  { sentiment_label := some ("negative"), sentiment_score := some q }

/-- Ten counted mentions of which exactly two are negative. -/
def demoTen : List Mention :=
  List.replicate 8 posMention ++ [negMention (mkRat 3 10), negMention (mkRat 2 5)]

/-- Five negative mentions with scores 0.9, 0.1, 0.5, 0.3, 0.7. -/
def demoFive : List Mention :=
  [negMention (mkRat 9 10), negMention (mkRat 1 10), negMention (mkRat 5 10),
   negMention (mkRat 3 10), negMention (mkRat 7 10)]

/-! ## Threshold evaluator claims -/

/-- C1.  For a positive counted total, `threshold_crossed` is true exactly
when `negative_count / counted_total >= threshold` (inclusive boundary), and
in particular 2 negatives out of 10 counted cross the default 0.20 threshold. -/
theorem threshold_crossed_iff_ratio_ge :
    (∀ (l : List Mention) (θ : ℚ), 0 < countedTotal l →
      ((calculate_sentiment_threshold l θ).1 = true ↔
        θ ≤ ((negList l).length : ℚ) / (countedTotal l : ℚ)))
    ∧ countedTotal demoTen = 10 ∧ (negList demoTen).length = 2
    ∧ (calculate_sentiment_threshold demoTen (mkRat 1 5)).1 = true := by
  refine ⟨?_, by decide, by decide, by decide⟩
  intro l θ h
  have hl : l ≠ [] := by
    intro he
    rw [he] at h
    simp [countedTotal] at h
  unfold calculate_sentiment_threshold
  rw [if_neg hl, if_neg (by omega)]
  have hmk : (mkRat ((negList l).length : Int) (countedTotal l) : ℚ)
      = ((negList l).length : ℚ) / (countedTotal l : ℚ) := by
    rw [Rat.mkRat_eq_div]
    push_cast
    rfl
  rw [hmk]
  by_cases hc : θ ≤ ((negList l).length : ℚ) / (countedTotal l : ℚ)
  · simp [hc]
  · simp [hc]

/-- Witness for `threshold_crossed_iff_ratio_ge` at the ten-mention demo. -/
theorem threshold_crossed_iff_ratio_ge_witness :
    0 < countedTotal demoTen ∧
      ((calculate_sentiment_threshold demoTen (mkRat 1 5)).1 = true ↔
        (mkRat 1 5 : ℚ) ≤ ((negList demoTen).length : ℚ) / (countedTotal demoTen : ℚ)) :=
  ⟨by decide, threshold_crossed_iff_ratio_ge.1 demoTen (mkRat 1 5) (by decide)⟩

/-- C6.  The evaluator returns `(false, 0.0, [])` on the empty input and on
any input whose counted total is zero (the model is a total function, which
reflects the source's catch-all exception handler returning this default). -/
theorem threshold_evaluator_safe_default :
    (∀ θ : ℚ, calculate_sentiment_threshold [] θ = (false, 0, []))
    ∧ (∀ (l : List Mention) (θ : ℚ), countedTotal l = 0 →
        calculate_sentiment_threshold l θ = (false, 0, [])) := by
  constructor
  · intro θ
    rfl
  · intro l θ h
    unfold calculate_sentiment_threshold
    by_cases hl : l = []
    · rw [if_pos hl]
    · rw [if_neg hl, if_pos h]

/-- Witness for `threshold_evaluator_safe_default`: a nonempty input with no
sentiment annotations yields the safe default. -/
theorem threshold_evaluator_safe_default_witness :
    countedTotal [({} : Mention)] = 0 ∧
      calculate_sentiment_threshold [({} : Mention)] (mkRat 1 5) = (false, 0, []) :=
  ⟨by decide, threshold_evaluator_safe_default.2 [({} : Mention)] (mkRat 1 5) (by decide)⟩

/-- C2.  When the threshold is crossed, `top_negative` is the negative subset
sorted ascending by score (stably), truncated to 3, and is itself sorted;
when not crossed it is empty; on the five-score demo the selected scores in
order are 0.1, 0.3, 0.5. -/
theorem top_negative_sorted_take_three :
    (∀ (l : List Mention) (θ : ℚ),
      ((calculate_sentiment_threshold l θ).1 = true →
        (calculate_sentiment_threshold l θ).2.2
            = (List.insertionSort scoreAscRel (negList l)).take 3 ∧
          List.Sorted scoreAscRel (calculate_sentiment_threshold l θ).2.2) ∧
      ((calculate_sentiment_threshold l θ).1 = false →
        (calculate_sentiment_threshold l θ).2.2 = []))
    ∧ ((calculate_sentiment_threshold demoFive (mkRat 1 5)).2.2).map scoreKey
        = [mkRat 1 10, mkRat 3 10, mkRat 1 2] := by
  refine ⟨?_, by decide⟩
  intro l θ
  have hsorted : List.Sorted scoreAscRel
      ((List.insertionSort scoreAscRel (negList l)).take 3) :=
    (List.sorted_insertionSort scoreAscRel (negList l)).sublist
      (List.take_sublist 3 _)
  unfold calculate_sentiment_threshold
  by_cases hl : l = []
  · rw [if_pos hl]
    exact ⟨fun h => Bool.noConfusion h, fun _ => rfl⟩
  · rw [if_neg hl]
    by_cases h0 : countedTotal l = 0
    · rw [if_pos h0]
      exact ⟨fun h => Bool.noConfusion h, fun _ => rfl⟩
    · rw [if_neg h0]
      by_cases hc : θ ≤ mkRat ((negList l).length : Int) (countedTotal l)
      · rw [if_pos hc]
        exact ⟨fun _ => ⟨rfl, hsorted⟩, fun h => Bool.noConfusion h⟩
      · rw [if_neg hc]
        exact ⟨fun h => Bool.noConfusion h, fun _ => rfl⟩

/-- Witness for `top_negative_sorted_take_three`: the five-negative demo
crosses the threshold and its selection equals the sorted-and-truncated
negative subset. -/
theorem top_negative_sorted_take_three_witness :
    (calculate_sentiment_threshold demoFive (mkRat 1 5)).1 = true ∧
      (calculate_sentiment_threshold demoFive (mkRat 1 5)).2.2
        = (List.insertionSort scoreAscRel (negList demoFive)).take 3 :=
  ⟨by decide,
    ((top_negative_sorted_take_three.1 demoFive (mkRat 1 5)).1 (by decide)).1⟩

/-! ## Positional sentiment merge claim -/

/-- C7.  The merge is strictly positional: the output at index `i` is the
input mention at index `i` with the sentiment result at index `i` attached,
or the neutral default once the results run out; in particular three mentions
with two results give the third the neutral default. -/
theorem sentiment_merge_positional :
    (∀ (ms : List Mention) (rs : List SentimentResult) (i : Nat),
      (merge_sentiment ms rs)[i]? =
        (match ms[i]?, rs[i]? with
         | some m, some r => some (attachSentiment m r)
         | some m, none => some (defaultSentiment m)
         | none, _ => none))
    ∧ (∀ (m1 m2 m3 : Mention) (r1 r2 : SentimentResult),
        merge_sentiment [m1, m2, m3] [r1, r2]
          = [attachSentiment m1 r1, attachSentiment m2 r2, defaultSentiment m3]) := by
  constructor
  · intro ms
    induction ms with
    | nil =>
      intro rs i
      simp [merge_sentiment]
    | cons m ms ih =>
      intro rs i
      cases rs with
      | nil =>
        cases i with
        | zero => simp [merge_sentiment]
        | succ j => simpa [merge_sentiment] using ih [] j
      | cons r rs =>
        cases i with
        | zero => simp [merge_sentiment]
        | succ j => simpa [merge_sentiment] using ih rs j
  · intro m1 m2 m3 r1 r2
    rfl

/-! ## Timestamp sorting lemmas -/

/-- A timestamp that parsed as offset-naive did parse. -/
theorem parsedNaive_parses {m : Mention} (h : parsedNaive m = true) :
    (tsParse m).isNone = false := by
  unfold parsedNaive at h
  cases hp : tsParse m with
  | none => rw [hp] at h; simp at h
  | some d => rfl

/-- A timestamp that parsed as offset-aware did parse. -/
theorem parsedAware_parses {m : Mention} (h : parsedAware m = true) :
    (tsParse m).isNone = false := by
  unfold parsedAware at h
  cases hp : tsParse m with
  | none => rw [hp] at h; simp at h
  | some d => rfl

/-- Offset-naive and offset-aware are mutually exclusive. -/
theorem parsedNaive_not_aware {m : Mention} (h : parsedNaive m = true) :
    parsedAware m = false := by
  unfold parsedNaive at h
  unfold parsedAware
  cases hp : tsParse m with
  | none => rfl
  | some d =>
    rw [hp] at h
    simp only [Option.isNone_iff_eq_none] at h
    simp [h]

/-- Offset-aware and offset-naive are mutually exclusive. -/
theorem parsedAware_not_naive {m : Mention} (h : parsedAware m = true) :
    parsedNaive m = false := by
  unfold parsedAware at h
  unfold parsedNaive
  cases hp : tsParse m with
  | none => rfl
  | some d =>
    rw [hp] at h
    simp only [Option.isSome_iff_exists] at h
    obtain ⟨o, ho⟩ := h
    simp [ho]

/-- On an all-naive input the sort succeeds and is the stable descending
insertion sort. -/
theorem sortNaiveEq (l : List Mention) (h : l.all parsedNaive = true) :
    sort_mentions_by_timestamp l true = List.insertionSort tsDescRel l := by
  have hall := List.all_eq_true.1 h
  have h1 : (l.any fun m => (tsParse m).isNone) = false := by
    rw [List.any_eq_false]
    intro m hm
    rw [parsedNaive_parses (hall m hm)]
    simp
  have h2 : l.any parsedAware = false := by
    rw [List.any_eq_false]
    intro m hm
    rw [parsedNaive_not_aware (hall m hm)]
    simp
  unfold sort_mentions_by_timestamp
  rw [h1, h2]
  simp

/-- On an all-aware input the sort succeeds and is the stable descending
insertion sort. -/
theorem sortAwareEq (l : List Mention) (h : l.all parsedAware = true) :
    sort_mentions_by_timestamp l true = List.insertionSort tsDescRel l := by
  have hall := List.all_eq_true.1 h
  have h1 : (l.any fun m => (tsParse m).isNone) = false := by
    rw [List.any_eq_false]
    intro m hm
    rw [parsedAware_parses (hall m hm)]
    simp
  have h2 : l.any parsedNaive = false := by
    rw [List.any_eq_false]
    intro m hm
    rw [parsedAware_not_naive (hall m hm)]
    simp
  unfold sort_mentions_by_timestamp
  rw [h1, h2]
  simp

/-- A failed parse anywhere in the input makes the sort return its input. -/
theorem sortFallbackEq (l : List Mention) (m : Mention) (hm : m ∈ l)
    (hnone : tsParse m = none) : sort_mentions_by_timestamp l true = l := by
  have h1 : (l.any fun m => (tsParse m).isNone) = true := by
    rw [List.any_eq_true]
    exact ⟨m, hm, by rw [hnone]; rfl⟩
  unfold sort_mentions_by_timestamp
  rw [h1]
  simp

/-! ## Concrete mentions for the sorting claims -/

/-- An offset-aware timestamp (as produced by replacing a trailing `Z`). -/
def awareMention : Mention :=
  { timestamp := some ("2023-01-01T00:00:00+00:00") }

/-- An offset-naive timestamp one year later. -/
def naiveMention2024 : Mention :=
  { timestamp := some ("2024-01-01T00:00:00") }

/-- An offset-naive timestamp in 2020. -/
def naiveMention2020 : Mention :=
  { timestamp := some ("2020-06-15T12:00:00") }

/-- A mention whose timestamp key is absent. -/
def missingTsMention : Mention :=
  { user := some ("alice") }

/-- A mention whose timestamp predates the 1970 default epoch. -/
def oldMention1969 : Mention :=
  { timestamp := some ("1969-12-31T23:00:00") }

/-- A mention whose timestamp does not parse. -/
def badTsMention : Mention :=
  { timestamp := some ("not-a-date") }

/-- Counterexample to C8 as stated: both timestamps parse, yet the function
returns the original unsorted order, because one parsed offset-aware and one
offset-naive and Python's comparison of the two raises `TypeError` (caught,
returning the input).  The stable descending sort would have put the newer
2024 mention first. -/
theorem sort_mixed_awareness_counterexample :
    sort_mentions_by_timestamp [awareMention, naiveMention2024] true
        = [awareMention, naiveMention2024]
      ∧ (tsParse awareMention).isSome = true
      ∧ (tsParse naiveMention2024).isSome = true
      ∧ List.insertionSort tsDescRel [awareMention, naiveMention2024]
          = [naiveMention2024, awareMention]
      ∧ awareMention ≠ naiveMention2024 := by
  decide

/-- C8 (amended).  A parse failure anywhere returns the input unchanged; when
every timestamp parses and all are offset-naive, or all offset-aware, the
result is the stable descending insertion sort and is sorted newest-first. -/
theorem sort_by_timestamp_fallback_and_stable :
    (∀ (l : List Mention) (m : Mention), m ∈ l → tsParse m = none →
      sort_mentions_by_timestamp l true = l)
    ∧ (∀ l : List Mention, l.all parsedNaive = true →
        sort_mentions_by_timestamp l true = List.insertionSort tsDescRel l
          ∧ List.Sorted tsDescRel (sort_mentions_by_timestamp l true))
    ∧ (∀ l : List Mention, l.all parsedAware = true →
        sort_mentions_by_timestamp l true = List.insertionSort tsDescRel l
          ∧ List.Sorted tsDescRel (sort_mentions_by_timestamp l true)) := by
  refine ⟨sortFallbackEq, fun l h => ?_, fun l h => ?_⟩
  · rw [sortNaiveEq l h]
    exact ⟨rfl, List.sorted_insertionSort tsDescRel l⟩
  · rw [sortAwareEq l h]
    exact ⟨rfl, List.sorted_insertionSort tsDescRel l⟩

/-- Witness for `sort_by_timestamp_fallback_and_stable`: an unparseable
timestamp triggers the fallback, and an all-naive list is sorted. -/
theorem sort_by_timestamp_fallback_and_stable_witness :
    sort_mentions_by_timestamp [badTsMention, naiveMention2024] true
        = [badTsMention, naiveMention2024]
      ∧ sort_mentions_by_timestamp [naiveMention2020, naiveMention2024] true
          = List.insertionSort tsDescRel [naiveMention2020, naiveMention2024] :=
  ⟨sort_by_timestamp_fallback_and_stable.1 [badTsMention, naiveMention2024]
      badTsMention (by decide) (by decide),
    (sort_by_timestamp_fallback_and_stable.2.1
      [naiveMention2020, naiveMention2024] (by decide)).1⟩

/-- Counterexample to C10 as stated: the mention with the absent timestamp is
keyed at the 1970 epoch, which is not "the oldest possible item" — a mention
with a 1969 timestamp sorts below it, so the missing-timestamp mention comes
first, not last, under the newest-first order. -/
theorem sort_missing_timestamp_not_oldest_counterexample :
    sort_mentions_by_timestamp [missingTsMention, oldMention1969] true
        = [missingTsMention, oldMention1969]
      ∧ missingTsMention ≠ oldMention1969 := by
  decide

/-- C10 (amended).  An absent timestamp is substituted by the offset-naive
default `1970-01-01T00:00:00` (so it does not trigger the fallback); among
offset-naive timestamps the list is stably sorted with that epoch key, so the
missing-timestamp mention is ordered last exactly when the others are newer
than the epoch, as in the concrete conjunct. -/
theorem sort_missing_timestamp_epoch_default :
    (∀ m : Mention, m.timestamp = none →
      tsParse m = some ⟨1970, 1, 1, 0, 0, 0, 0, none⟩)
    ∧ (∀ l : List Mention, l.all parsedNaive = true →
        sort_mentions_by_timestamp l true = List.insertionSort tsDescRel l)
    ∧ sort_mentions_by_timestamp
        [naiveMention2024, missingTsMention, naiveMention2020] true
        = [naiveMention2024, naiveMention2020, missingTsMention] := by
  refine ⟨?_, sortNaiveEq, by decide⟩
  intro m h
  unfold tsParse
  rw [h]
  rfl

/-- Witness for `sort_missing_timestamp_epoch_default`. -/
theorem sort_missing_timestamp_epoch_default_witness :
    tsParse missingTsMention = some ⟨1970, 1, 1, 0, 0, 0, 0, none⟩
      ∧ sort_mentions_by_timestamp
          [naiveMention2024, missingTsMention, naiveMention2020] true
          = List.insertionSort tsDescRel
              [naiveMention2024, missingTsMention, naiveMention2020] :=
  ⟨sort_missing_timestamp_epoch_default.1 missingTsMention rfl,
    sort_missing_timestamp_epoch_default.2.1
      [naiveMention2024, missingTsMention, naiveMention2020] (by decide)⟩

/-! ## Deduplication lemmas -/

/-- Strings with equal character data are equal. -/
theorem stringDataInj {s t : String} (h : s.data = t.data) : s = t := by
  cases s
  cases t
  exact congrArg String.mk h

/-- Left cancellation for list append. -/
theorem appendCancelLeft (xs : List Char) {a b : List Char}
    (h : xs ++ a = xs ++ b) : a = b := by
  induction xs with
  | nil => exact h
  | cons x xs ih =>
    injection h with h1 h2
    exact ih h2

/-- Looking up in an updated dictionary. -/
theorem lookupD_insertH (sh : List (List Char × Nat)) (h x : List Char) (v : Nat) :
    lookupD (insertH sh h v) x = if h = x then v else lookupD sh x :=
  rfl

/-- Key presence in an updated dictionary. -/
theorem hasH_insertH (sh : List (List Char × Nat)) (h x : List Char) (v : Nat) :
    hasH (insertH sh h v) x = (decide (h = x) || hasH sh x) :=
  rfl

/-- An absent key has count zero. -/
theorem lookupD_eq_zero_of_hasH_false {sh : List (List Char × Nat)}
    {x : List Char} (h : hasH sh x = false) : lookupD sh x = 0 := by
  induction sh with
  | nil => rfl
  | cons p rest ih =>
    obtain ⟨k, v⟩ := p
    unfold hasH at h
    unfold lookupD
    simp only [Bool.or_eq_false_iff, decide_eq_false_iff_not] at h
    rw [if_neg h.1]
    exact ih h.2

/-- A mention that validates has at least 10 characters of normalized text,
so its content key is nonempty. -/
theorem contentKey_ne_nil_of_valid {m : Mention}
    (h : validate_mention_data m = true) : contentKey m ≠ [] := by
  intro hc
  unfold validate_mention_data at h
  simp only [Bool.and_eq_true, decide_eq_true_eq] at h
  have h10 := h.1.2
  have hlen : (pyStripL (getS m.text).data).length = 0 := by
    have := congrArg List.length hc
    simpa [contentKey, pyLowerL] using this
  omega

/-- An empty content key means validation fails. -/
theorem validate_false_of_contentKey_nil {m : Mention}
    (h : contentKey m = []) : validate_mention_data m = false := by
  cases hv : validate_mention_data m with
  | false => rfl
  | true => exact absurd h (contentKey_ne_nil_of_valid hv)

/-- A valid mention's source is one of the three known sources. -/
theorem source_valid_of_valid {m : Mention}
    (h : validate_mention_data m = true) :
    getS m.source = "twitter" ∨ getS m.source = "facebook"
      ∨ getS m.source = "google_play" := by
  unfold validate_mention_data at h
  simp only [Bool.and_eq_true, Bool.or_eq_true, beq_iff_eq] at h
  have hs := h.1.1.1.2
  tauto

/-- Identity keys of valid mentions are injective in the id: the three valid
source prefixes never let distinct ids collide. -/
theorem mentionKey_inj {m1 m2 : Mention}
    (h1 : validate_mention_data m1 = true) (h2 : validate_mention_data m2 = true)
    (hk : mentionKey m1 = mentionKey m2) : getS m1.id = getS m2.id := by
  have s1 := source_valid_of_valid h1
  have s2 := source_valid_of_valid h2
  unfold mentionKey at hk
  rcases s1 with e1 | e1 | e1 <;> rcases s2 with e2 | e2 | e2 <;>
    rw [e1, e2] at hk <;> simp at hk <;> exact stringDataInj hk

/-- Step: a repeated identity key is dropped without touching any state. -/
theorem dedupGo_drop_id {m : Mention} {rest : List Mention}
    {seen : List (List Char)} {sh : List (List Char × Nat)}
    (h : mentionKey m ∈ seen) :
    dedupGo (m :: rest) seen sh = dedupGo rest seen sh := by
  rw [dedupGo]
  rw [if_pos h]

/-- Step: empty normalized text skips content hashing and fails validation. -/
theorem dedupGo_empty_content {m : Mention} {rest : List Mention}
    {seen : List (List Char)} {sh : List (List Char × Nat)}
    (h1 : mentionKey m ∉ seen) (hc : contentKey m = []) :
    dedupGo (m :: rest) seen sh = dedupGo rest (mentionKey m :: seen) sh := by
  have hval : validate_mention_data m = false := validate_false_of_contentKey_nil hc
  rw [dedupGo]
  rw [if_neg h1, if_pos hc, if_neg (by simp [hval])]

/-- Step: a synthetic mention whose content hash already occurred twice is
dropped (its identity key is still recorded). -/
theorem dedupGo_drop_sim_count {m : Mention} {rest : List Mention}
    {seen : List (List Char)} {sh : List (List Char × Nat)}
    (h1 : mentionKey m ∉ seen) (hc : contentKey m ≠ [])
    (h2 : isSimulated m = true) (h3 : 2 ≤ lookupD sh (contentKey m)) :
    dedupGo (m :: rest) seen sh = dedupGo rest (mentionKey m :: seen) sh := by
  rw [dedupGo]
  rw [if_neg h1, if_neg hc, if_pos h2, if_pos h3]

/-- Step: a valid synthetic mention below the occurrence cap is kept and the
occurrence count incremented. -/
theorem dedupGo_keep_sim {m : Mention} {rest : List Mention}
    {seen : List (List Char)} {sh : List (List Char × Nat)}
    (h1 : mentionKey m ∉ seen) (h2 : isSimulated m = true)
    (h3 : lookupD sh (contentKey m) ≤ 1) (h4 : validate_mention_data m = true) :
    dedupGo (m :: rest) seen sh
      = m :: dedupGo rest (mentionKey m :: seen)
          (insertH sh (contentKey m) (lookupD sh (contentKey m) + 1)) := by
  rw [dedupGo]
  rw [if_neg h1, if_neg (contentKey_ne_nil_of_valid h4), if_pos h2,
    if_neg (by omega), if_pos h4]

/-- Step: an invalid synthetic mention below the cap is dropped but still
increments the occurrence count. -/
theorem dedupGo_drop_sim_invalid {m : Mention} {rest : List Mention}
    {seen : List (List Char)} {sh : List (List Char × Nat)}
    (h1 : mentionKey m ∉ seen) (hc : contentKey m ≠ [])
    (h2 : isSimulated m = true) (h3 : lookupD sh (contentKey m) ≤ 1)
    (h4 : validate_mention_data m = false) :
    dedupGo (m :: rest) seen sh
      = dedupGo rest (mentionKey m :: seen)
          (insertH sh (contentKey m) (lookupD sh (contentKey m) + 1)) := by
  rw [dedupGo]
  rw [if_neg h1, if_neg hc, if_pos h2, if_neg (by omega), if_neg (by simp [h4])]

/-- Step: a non-synthetic mention whose content hash was seen is dropped. -/
theorem dedupGo_drop_real_seen {m : Mention} {rest : List Mention}
    {seen : List (List Char)} {sh : List (List Char × Nat)}
    (h1 : mentionKey m ∉ seen) (hc : contentKey m ≠ [])
    (h2 : isSimulated m = false) (h3 : hasH sh (contentKey m) = true) :
    dedupGo (m :: rest) seen sh = dedupGo rest (mentionKey m :: seen) sh := by
  rw [dedupGo]
  rw [if_neg h1, if_neg hc, if_neg (by simp [h2]), if_pos h3]

/-- Step: a valid non-synthetic mention with a fresh content hash is kept and
the hash recorded with count 1. -/
theorem dedupGo_keep_real {m : Mention} {rest : List Mention}
    {seen : List (List Char)} {sh : List (List Char × Nat)}
    (h1 : mentionKey m ∉ seen) (h2 : isSimulated m = false)
    (h3 : hasH sh (contentKey m) = false) (h4 : validate_mention_data m = true) :
    dedupGo (m :: rest) seen sh
      = m :: dedupGo rest (mentionKey m :: seen) (insertH sh (contentKey m) 1) := by
  rw [dedupGo]
  rw [if_neg h1, if_neg (contentKey_ne_nil_of_valid h4), if_neg (by simp [h2]),
    if_neg (by simp [h3]), if_pos h4]

/-- Step: an invalid non-synthetic mention with a fresh content hash is
dropped but the hash is still recorded. -/
theorem dedupGo_drop_real_invalid {m : Mention} {rest : List Mention}
    {seen : List (List Char)} {sh : List (List Char × Nat)}
    (h1 : mentionKey m ∉ seen) (hc : contentKey m ≠ [])
    (h2 : isSimulated m = false) (h3 : hasH sh (contentKey m) = false)
    (h4 : validate_mention_data m = false) :
    dedupGo (m :: rest) seen sh
      = dedupGo rest (mentionKey m :: seen) (insertH sh (contentKey m) 1) := by
  rw [dedupGo]
  rw [if_neg h1, if_neg hc, if_neg (by simp [h2]), if_neg (by simp [h3]),
    if_neg (by simp [h4])]

/-- Weakening: keys absent from an extended seen-set are absent from the
original. -/
theorem keys_not_mem_weaken {out : List Mention} {k : List Char}
    {seen : List (List Char)}
    (h : ∀ m ∈ out, mentionKey m ∉ (k :: seen)) :
    ∀ m ∈ out, mentionKey m ∉ seen :=
  fun m hm hmem => h m hm (List.mem_cons_of_mem _ hmem)

/-- The deduplication loop never emits two records with the same identity
key, and never emits a key it has already seen. -/
theorem dedupGo_nodup_keys (l : List Mention) :
    ∀ (seen : List (List Char)) (sh : List (List Char × Nat)),
      ((dedupGo l seen sh).map mentionKey).Nodup
        ∧ ∀ m ∈ dedupGo l seen sh, mentionKey m ∉ seen := by
  induction l with
  | nil =>
    intro seen sh
    constructor
    · simp [dedupGo]
    · intro m hm
      simp [dedupGo] at hm
  | cons m rest ih =>
    intro seen sh
    by_cases hid : mentionKey m ∈ seen
    · rw [dedupGo_drop_id hid]
      exact ih seen sh
    · by_cases htc : contentKey m = []
      · rw [dedupGo_empty_content hid htc]
        obtain ⟨a1, a2⟩ := ih (mentionKey m :: seen) sh
        exact ⟨a1, keys_not_mem_weaken a2⟩
      · by_cases hsim : isSimulated m = true
        · by_cases hcnt : 2 ≤ lookupD sh (contentKey m)
          · rw [dedupGo_drop_sim_count hid htc hsim hcnt]
            obtain ⟨a1, a2⟩ := ih (mentionKey m :: seen) sh
            exact ⟨a1, keys_not_mem_weaken a2⟩
          · have hcnt1 : lookupD sh (contentKey m) ≤ 1 := by omega
            by_cases hval : validate_mention_data m = true
            · rw [dedupGo_keep_sim hid hsim hcnt1 hval]
              obtain ⟨a1, a2⟩ := ih (mentionKey m :: seen)
                (insertH sh (contentKey m) (lookupD sh (contentKey m) + 1))
              constructor
              · rw [List.map_cons, List.nodup_cons]
                refine ⟨fun hmem => ?_, a1⟩
                obtain ⟨x, hx, he⟩ := List.mem_map.1 hmem
                exact a2 x hx (he ▸ List.mem_cons_self _ _)
              · intro x hx
                rcases List.mem_cons.1 hx with rfl | hx1
                · exact hid
                · exact fun hmem => a2 x hx1 (List.mem_cons_of_mem _ hmem)
            · have hval0 : validate_mention_data m = false := by
                cases hv : validate_mention_data m with
                | false => rfl
                | true => exact absurd hv hval
              rw [dedupGo_drop_sim_invalid hid htc hsim hcnt1 hval0]
              obtain ⟨a1, a2⟩ := ih (mentionKey m :: seen)
                (insertH sh (contentKey m) (lookupD sh (contentKey m) + 1))
              exact ⟨a1, keys_not_mem_weaken a2⟩
        · have hsim0 : isSimulated m = false := by
            cases hv : isSimulated m with
            | false => rfl
            | true => exact absurd hv hsim
          by_cases hhash : hasH sh (contentKey m) = true
          · rw [dedupGo_drop_real_seen hid htc hsim0 hhash]
            obtain ⟨a1, a2⟩ := ih (mentionKey m :: seen) sh
            exact ⟨a1, keys_not_mem_weaken a2⟩
          · have hhash0 : hasH sh (contentKey m) = false := by
              cases hv : hasH sh (contentKey m) with
              | false => rfl
              | true => exact absurd hv hhash
            by_cases hval : validate_mention_data m = true
            · rw [dedupGo_keep_real hid hsim0 hhash0 hval]
              obtain ⟨a1, a2⟩ := ih (mentionKey m :: seen)
                (insertH sh (contentKey m) 1)
              constructor
              · rw [List.map_cons, List.nodup_cons]
                refine ⟨fun hmem => ?_, a1⟩
                obtain ⟨x, hx, he⟩ := List.mem_map.1 hmem
                exact a2 x hx (he ▸ List.mem_cons_self _ _)
              · intro x hx
                rcases List.mem_cons.1 hx with rfl | hx1
                · exact hid
                · exact fun hmem => a2 x hx1 (List.mem_cons_of_mem _ hmem)
            · have hval0 : validate_mention_data m = false := by
                cases hv : validate_mention_data m with
                | false => rfl
                | true => exact absurd hv hval
              rw [dedupGo_drop_real_invalid hid htc hsim0 hhash0 hval0]
              obtain ⟨a1, a2⟩ := ih (mentionKey m :: seen)
                (insertH sh (contentKey m) 1)
              exact ⟨a1, keys_not_mem_weaken a2⟩

/-- C4.  No two records in the deduplicator's output share the identity key,
and in particular no two share the `(source, id)` pair. -/
theorem dedup_unique_source_id (l : List Mention) :
    ((deduplicate_mentions l).map mentionKey).Nodup
      ∧ List.Pairwise (fun a b : Mention => ¬(a.source = b.source ∧ a.id = b.id))
          (deduplicate_mentions l) := by
  obtain ⟨h1, _⟩ := dedupGo_nodup_keys l [] []
  refine ⟨h1, ?_⟩
  have hp : List.Pairwise (fun a b : Mention => mentionKey a ≠ mentionKey b)
      (deduplicate_mentions l) := by
    rw [List.Nodup, List.pairwise_map] at h1
    exact h1
  refine hp.imp ?_
  intro a b hne hab
  apply hne
  unfold mentionKey
  rw [hab.1, hab.2]

/-- States under which a list passes through the deduplication loop
unchanged: each element's identity key is fresh, it validates, and its
content-hash count is low enough for its (synthetic or strict) policy, with
the state updated exactly as the loop updates it. -/
def SecondPassFixed : List (List Char) → List (List Char × Nat) → List Mention → Prop
  | _, _, [] => True
  | seen, sh, m :: rest =>
    mentionKey m ∉ seen ∧ validate_mention_data m = true ∧
      (if isSimulated m = true then
        lookupD sh (contentKey m) ≤ 1 ∧
          SecondPassFixed (mentionKey m :: seen)
            (insertH sh (contentKey m) (lookupD sh (contentKey m) + 1)) rest
      else
        hasH sh (contentKey m) = false ∧
          SecondPassFixed (mentionKey m :: seen) (insertH sh (contentKey m) 1) rest)

/-- A list satisfying `SecondPassFixed` is a fixed point of the loop. -/
theorem dedupGo_fixed_of_SecondPassFixed :
    ∀ (out : List Mention) (seen : List (List Char)) (sh : List (List Char × Nat)),
      SecondPassFixed seen sh out → dedupGo out seen sh = out := by
  intro out
  induction out with
  | nil =>
    intro seen sh _
    rfl
  | cons m rest ih =>
    intro seen sh h
    rw [SecondPassFixed] at h
    obtain ⟨h1, h2, h3⟩ := h
    by_cases hsim : isSimulated m = true
    · rw [if_pos hsim] at h3
      obtain ⟨hcnt, hrec⟩ := h3
      rw [dedupGo_keep_sim h1 hsim hcnt h2, ih _ _ hrec]
    · have hsim0 : isSimulated m = false := by
        cases hv : isSimulated m with
        | false => rfl
        | true => exact absurd hv hsim
      rw [if_neg hsim] at h3
      obtain ⟨hhash, hrec⟩ := h3
      rw [dedupGo_keep_real h1 hsim0 hhash h2, ih _ _ hrec]

/-- The output of the loop satisfies `SecondPassFixed` with respect to any
"smaller" state: a seen-set contained in the loop's, and hash counts bounded
by the loop's (with presence implying presence). -/
theorem secondPassFixed_dedupGo :
    ∀ (l : List Mention) (seen : List (List Char)) (sh : List (List Char × Nat))
      (seen2 : List (List Char)) (sh2 : List (List Char × Nat)),
      (∀ k, k ∈ seen2 → k ∈ seen) →
      (∀ x, lookupD sh2 x ≤ lookupD sh x) →
      (∀ x, hasH sh2 x = true → hasH sh x = true) →
      SecondPassFixed seen2 sh2 (dedupGo l seen sh) := by
  intro l
  induction l with
  | nil =>
    intro seen sh seen2 sh2 _ _ _
    exact trivial
  | cons m rest ih =>
    intro seen sh seen2 sh2 i1 i2 i3
    by_cases hid : mentionKey m ∈ seen
    · rw [dedupGo_drop_id hid]
      exact ih seen sh seen2 sh2 i1 i2 i3
    · by_cases htc : contentKey m = []
      · rw [dedupGo_empty_content hid htc]
        exact ih _ sh seen2 sh2 (fun k hk => List.mem_cons_of_mem _ (i1 k hk)) i2 i3
      · by_cases hsim : isSimulated m = true
        · by_cases hcnt : 2 ≤ lookupD sh (contentKey m)
          · rw [dedupGo_drop_sim_count hid htc hsim hcnt]
            exact ih _ sh seen2 sh2 (fun k hk => List.mem_cons_of_mem _ (i1 k hk)) i2 i3
          · have hcnt1 : lookupD sh (contentKey m) ≤ 1 := by omega
            by_cases hval : validate_mention_data m = true
            · rw [dedupGo_keep_sim hid hsim hcnt1 hval]
              rw [SecondPassFixed]
              refine ⟨fun hmem => hid (i1 _ hmem), hval, ?_⟩
              rw [if_pos hsim]
              refine ⟨le_trans (i2 _) hcnt1, ?_⟩
              apply ih
              · intro k hk
                rcases List.mem_cons.1 hk with rfl | hk1
                · exact List.mem_cons_self _ _
                · exact List.mem_cons_of_mem _ (i1 k hk1)
              · intro x
                rw [lookupD_insertH, lookupD_insertH]
                by_cases hx : contentKey m = x
                · subst hx
                  rw [if_pos rfl, if_pos rfl]
                  have := i2 (contentKey m)
                  omega
                · rw [if_neg hx, if_neg hx]
                  exact i2 x
              · intro x hx
                rw [hasH_insertH] at hx ⊢
                simp only [Bool.or_eq_true] at hx ⊢
                rcases hx with hx | hx
                · exact Or.inl hx
                · exact Or.inr (i3 x hx)
            · have hval0 : validate_mention_data m = false := by
                cases hv : validate_mention_data m with
                | false => rfl
                | true => exact absurd hv hval
              rw [dedupGo_drop_sim_invalid hid htc hsim hcnt1 hval0]
              apply ih
              · exact fun k hk => List.mem_cons_of_mem _ (i1 k hk)
              · intro x
                rw [lookupD_insertH]
                by_cases hx : contentKey m = x
                · subst hx
                  rw [if_pos rfl]
                  have := i2 (contentKey m)
                  omega
                · rw [if_neg hx]
                  exact i2 x
              · intro x hx
                rw [hasH_insertH]
                simp only [Bool.or_eq_true]
                exact Or.inr (i3 x hx)
        · have hsim0 : isSimulated m = false := by
            cases hv : isSimulated m with
            | false => rfl
            | true => exact absurd hv hsim
          by_cases hhash : hasH sh (contentKey m) = true
          · rw [dedupGo_drop_real_seen hid htc hsim0 hhash]
            exact ih _ sh seen2 sh2 (fun k hk => List.mem_cons_of_mem _ (i1 k hk)) i2 i3
          · have hhash0 : hasH sh (contentKey m) = false := by
              cases hv : hasH sh (contentKey m) with
              | false => rfl
              | true => exact absurd hv hhash
            by_cases hval : validate_mention_data m = true
            · rw [dedupGo_keep_real hid hsim0 hhash0 hval]
              rw [SecondPassFixed]
              have hh2 : hasH sh2 (contentKey m) = false := by
                cases hv : hasH sh2 (contentKey m) with
                | false => rfl
                | true => exact absurd (i3 _ hv) (by simp [hhash0])
              refine ⟨fun hmem => hid (i1 _ hmem), hval, ?_⟩
              rw [if_neg hsim]
              refine ⟨hh2, ?_⟩
              apply ih
              · intro k hk
                rcases List.mem_cons.1 hk with rfl | hk1
                · exact List.mem_cons_self _ _
                · exact List.mem_cons_of_mem _ (i1 k hk1)
              · intro x
                rw [lookupD_insertH, lookupD_insertH]
                by_cases hx : contentKey m = x
                · subst hx
                  rw [if_pos rfl, if_pos rfl]
                · rw [if_neg hx, if_neg hx]
                  exact i2 x
              · intro x hx
                rw [hasH_insertH] at hx ⊢
                simp only [Bool.or_eq_true] at hx ⊢
                rcases hx with hx | hx
                · exact Or.inl hx
                · exact Or.inr (i3 x hx)
            · have hval0 : validate_mention_data m = false := by
                cases hv : validate_mention_data m with
                | false => rfl
                | true => exact absurd hv hval
              rw [dedupGo_drop_real_invalid hid htc hsim0 hhash0 hval0]
              apply ih
              · exact fun k hk => List.mem_cons_of_mem _ (i1 k hk)
              · intro x
                rw [lookupD_insertH]
                by_cases hx : contentKey m = x
                · subst hx
                  rw [if_pos rfl]
                  have hz : lookupD sh (contentKey m) = 0 :=
                    lookupD_eq_zero_of_hasH_false hhash0
                  have := i2 (contentKey m)
                  omega
                · rw [if_neg hx]
                  exact i2 x
              · intro x hx
                rw [hasH_insertH]
                simp only [Bool.or_eq_true]
                exact Or.inr (i3 x hx)

/-- C5.  The deduplicator is idempotent: a second pass over its own output
drops nothing and returns the output unchanged. -/
theorem dedup_idempotent (l : List Mention) :
    deduplicate_mentions (deduplicate_mentions l) = deduplicate_mentions l := by
  unfold deduplicate_mentions
  exact dedupGo_fixed_of_SecondPassFixed _ _ _
    (secondPassFixed_dedupGo l [] [] [] []
      (fun _ hk => hk) (fun _ => le_refl _) (fun _ hx => hx))

/-- C3.  Three otherwise-valid records with identical normalized text and
pairwise-distinct ids: if all ids carry a synthetic marker exactly 2 survive;
if none does, exactly 1 survives. -/
theorem dedup_synthetic_vs_strict (r1 r2 r3 : Mention)
    (hv1 : validate_mention_data r1 = true)
    (hv2 : validate_mention_data r2 = true)
    (hv3 : validate_mention_data r3 = true)
    (hc2 : contentKey r2 = contentKey r1)
    (hc3 : contentKey r3 = contentKey r1)
    (hi12 : getS r1.id ≠ getS r2.id)
    (hi13 : getS r1.id ≠ getS r3.id)
    (hi23 : getS r2.id ≠ getS r3.id) :
    (isSimulated r1 = true → isSimulated r2 = true → isSimulated r3 = true →
      (deduplicate_mentions [r1, r2, r3]).length = 2)
    ∧ (isSimulated r1 = false → isSimulated r2 = false → isSimulated r3 = false →
      (deduplicate_mentions [r1, r2, r3]).length = 1) := by
  have hk12 : mentionKey r1 ≠ mentionKey r2 := fun h => hi12 (mentionKey_inj hv1 hv2 h)
  have hk13 : mentionKey r1 ≠ mentionKey r3 := fun h => hi13 (mentionKey_inj hv1 hv3 h)
  have hk23 : mentionKey r2 ≠ mentionKey r3 := fun h => hi23 (mentionKey_inj hv2 hv3 h)
  have hcne2 : contentKey r2 ≠ [] := contentKey_ne_nil_of_valid hv2
  have hcne3 : contentKey r3 ≠ [] := contentKey_ne_nil_of_valid hv3
  have m2 : mentionKey r2 ∉ [mentionKey r1] := by
    intro h
    exact hk12 (List.mem_singleton.1 h).symm
  have m3 : mentionKey r3 ∉ [mentionKey r2, mentionKey r1] := by
    intro h
    rcases List.mem_cons.1 h with h | h
    · exact hk23 h.symm
    · exact hk13 (List.mem_singleton.1 h).symm
  constructor
  · intro s1 s2 s3
    have step : deduplicate_mentions [r1, r2, r3] = [r1, r2] := by
      unfold deduplicate_mentions
      rw [dedupGo_keep_sim (List.not_mem_nil _) s1 (by simp [lookupD]) hv1]
      rw [dedupGo_keep_sim m2 s2
        (by rw [hc2]; simp [lookupD_insertH, lookupD]) hv2]
      rw [dedupGo_drop_sim_count m3 hcne3 s3
        (by rw [hc3, hc2]; simp [lookupD_insertH, lookupD])]
      rfl
    rw [step]
    rfl
  · intro s1 s2 s3
    have step : deduplicate_mentions [r1, r2, r3] = [r1] := by
      unfold deduplicate_mentions
      rw [dedupGo_keep_real (List.not_mem_nil _) s1
        (show hasH ([] : List (List Char × Nat)) (contentKey r1) = false from rfl) hv1]
      rw [dedupGo_drop_real_seen m2 hcne2 s2
        (by rw [hc2]; simp [hasH_insertH])]
      rw [dedupGo_drop_real_seen m3 hcne3 s3
        (by rw [hc3]; simp [hasH_insertH])]
      rfl
    rw [step]
    rfl

/-- A demo record with a given id, valid in every other respect. -/
def demoRec (i : String) : Mention :=
  { source := some ("twitter"), id := some i, user := some ("alice"),
    text := some ("identical demo text for dedup"),
    timestamp := some ("2024-01-02T03:04:05") }

/-- Witness for `dedup_synthetic_vs_strict` on concrete synthetic and
non-synthetic triples. -/
theorem dedup_synthetic_vs_strict_witness :
    (deduplicate_mentions
      [demoRec ("sim_a"), demoRec ("sim_b"), demoRec ("sim_c")]).length = 2
    ∧ (deduplicate_mentions
      [demoRec ("real_a"), demoRec ("real_b"), demoRec ("real_c")]).length = 1 :=
  ⟨(dedup_synthetic_vs_strict (demoRec ("sim_a")) (demoRec ("sim_b"))
      (demoRec ("sim_c")) (by decide) (by decide) (by decide) rfl rfl
      (by decide) (by decide) (by decide)).1 (by decide) (by decide) (by decide),
    (dedup_synthetic_vs_strict (demoRec ("real_a")) (demoRec ("real_b"))
      (demoRec ("real_c")) (by decide) (by decide) (by decide) rfl rfl
      (by decide) (by decide) (by decide)).2 (by decide) (by decide) (by decide)⟩

/-! ## Sheet formatting lemmas -/

/-- A last decimal digit renders as a digit character. -/
theorem isDigitCh_digitChar_mod (x : Nat) :
    isDigitCh (digitChar (x % 10)) = true := by
  have h : x % 10 < 10 := Nat.mod_lt _ (by decide)
  revert h
  generalize x % 10 = k
  intro h
  interval_cases k <;> decide

/-- Every rendered timestamp has the promised `YYYY-MM-DD HH:MM:SS UTC`
shape. -/
theorem isRenderedForm_renderDT (d : PyDateTime) :
    isRenderedForm (renderDT d) = true := by
  unfold renderDT isRenderedForm pad4 pad2
  simp only [List.cons_append, List.nil_append]
  simp [isDigitCh_digitChar_mod]

/-- Stripping only removes characters. -/
theorem mem_pyStripL {c : Char} {l : List Char} (h : c ∈ pyStripL l) : c ∈ l := by
  unfold pyStripL at h
  have h1 := List.mem_reverse.1 h
  have h2 := (List.dropWhile_sublist _).subset h1
  have h3 := List.mem_reverse.1 h2
  exact (List.dropWhile_sublist _).subset h3

/-- Characters of the cleaned text are never newline or carriage return. -/
theorem cleanedText_no_newline {c : Char} {m : Mention}
    (h : c ∈ cleanedText m) : c ≠ '\n' ∧ c ≠ '\x0d' := by
  have h1 := mem_pyStripL h
  obtain ⟨b, _, rfl⟩ := List.mem_map.1 h1
  by_cases hr : b = '\x0d'
  · rw [if_pos hr]
    exact ⟨by decide, by decide⟩
  · rw [if_neg hr]
    obtain ⟨a, _, rfl⟩ := List.mem_map.1 ‹b ∈ _›
    by_cases hn : a = '\n'
    · rw [if_pos hn]
      exact ⟨by decide, by decide⟩
    · rw [if_neg hn]
      refine ⟨hn, ?_⟩
      rw [if_neg hn] at hr
      exact hr

/-- The text column never contains a newline or carriage return. -/
theorem textCol_no_newline (m : Mention) :
    ∀ c ∈ (textCol m).data, c ≠ '\n' ∧ c ≠ '\x0d' := by
  intro c hc
  unfold textCol at hc
  by_cases h0 : (m.text.getD (m.content.getD (""))).data = []
  · rw [if_pos h0] at hc
    rw [h0] at hc
    exact absurd hc (List.not_mem_nil c)
  · rw [if_neg h0] at hc
    by_cases hl : 1000 < (cleanedText m).length
    · rw [if_pos hl] at hc
      have hc2 : c ∈ (cleanedText m).take 1000 ++ ("...").data := hc
      rcases List.mem_append.1 hc2 with hc3 | hc3
      · exact cleanedText_no_newline ((List.take_sublist _ _).subset hc3)
      · have hdots : ("...").data = ['.', '.', '.'] := rfl
        rw [hdots] at hc3
        have hcd : c = '.' := by
          simp only [List.mem_cons, List.not_mem_nil, or_false] at hc3
          rcases hc3 with h | h | h <;> exact h
        rw [hcd]
        exact ⟨by decide, by decide⟩
    · rw [if_neg hl] at hc
      exact cleanedText_no_newline hc

/-- The text column is at most 1003 characters (1000 plus the ellipsis). -/
theorem textCol_length_le (m : Mention) : (textCol m).length ≤ 1003 := by
  unfold textCol
  by_cases h0 : (m.text.getD (m.content.getD (""))).data = []
  · rw [if_pos h0]
    have hz : (m.text.getD (m.content.getD (""))).length = 0 := by
      show (m.text.getD (m.content.getD (""))).data.length = 0
      rw [h0]
      rfl
    omega
  · rw [if_neg h0]
    by_cases hl : 1000 < (cleanedText m).length
    · rw [if_pos hl]
      show ((cleanedText m).take 1000 ++ ("...").data).length ≤ 1003
      rw [List.length_append, List.length_take]
      have hmin := min_le_left 1000 (cleanedText m).length
      have hdots : ("...").data.length = 3 := rfl
      omega
    · rw [if_neg hl]
      show (cleanedText m).length ≤ 1003
      omega

/-- When the timestamp parses, the first column is the rendered datetime. -/
theorem timestampCol_renders {now : String} {m : Mention} {d : PyDateTime}
    (h : parseIso (replaceZL (m.timestamp.getD now).data) = some d) :
    timestampCol now m = renderDT d := by
  unfold timestampCol
  rw [h]

/-- Counterexample to C9 as stated: a mention whose timestamp does not parse
has its raw timestamp string passed through to the first column, so the
column is not rendered as `YYYY-MM-DD HH:MM:SS UTC`. -/
theorem format_unparseable_timestamp_counterexample :
    (format_row ("2025-01-01T00:00:00") badTsMention).head? = some ("not-a-date")
      ∧ isRenderedForm ("not-a-date") = false := by
  decide

/-- C9 (amended).  Each formatted row has exactly the seven columns in the
specified order; the timestamp column is rendered `YYYY-MM-DD HH:MM:SS UTC`
whenever the stored timestamp parses (and is otherwise passed through); the
text column contains no newline or carriage return, is capped at 1003
characters, and is the 1000-character prefix plus ellipsis when the cleaned
text is longer; the score column renders the score rounded to 4 decimal
places. -/
theorem format_row_columns (now : String) (m : Mention) :
    format_row now m
        = [timestampCol now m, m.source.getD ("unknown"), m.id.getD (""),
           m.user.getD (m.username.getD ("")), textCol m,
           m.sentiment_label.getD ("neutral"), scoreCol m]
      ∧ (format_row now m).length = 7
      ∧ (∀ d : PyDateTime,
          parseIso (replaceZL (m.timestamp.getD now).data) = some d →
            timestampCol now m = renderDT d
              ∧ isRenderedForm (timestampCol now m) = true)
      ∧ (∀ c ∈ (textCol m).data, c ≠ '\n' ∧ c ≠ '\x0d')
      ∧ (textCol m).length ≤ 1003
      ∧ ((m.text.getD (m.content.getD (""))).data ≠ [] →
          1000 < (cleanedText m).length →
          textCol m = String.mk ((cleanedText m).take 1000 ++ ("...").data))
      ∧ scoreCol m = decOfInt4 (round4Int (m.sentiment_score.getD (mkRat 1 2))) := by
  refine ⟨rfl, rfl, ?_, textCol_no_newline m, textCol_length_le m, ?_, rfl⟩
  · intro d hd
    have he := timestampCol_renders hd
    rw [he]
    exact ⟨rfl, isRenderedForm_renderDT d⟩
  · intro h0 hl
    unfold textCol
    rw [if_neg h0, if_pos hl]

/-- A concrete mention exercising the formatter: `Z`-suffixed timestamp,
embedded newline, and a score that rounds to four decimals. -/
def demoFormatMention : Mention :=
  { source := some ("twitter"), id := some ("id1"), user := some ("alice"),
    text := some ("hello\nworld, a fine product"),
    timestamp := some ("2024-01-02T03:04:05Z"),
    sentiment_label := some ("positive"),
    sentiment_score := some (mkRat 87654 100000) }

/-- The datetime parsed from the demo mention's timestamp. -/
def demoDT : PyDateTime :=
  ⟨2024, 1, 2, 3, 4, 5, 0, some 0⟩

/-- Witness for `format_row_columns` at the demo mention. -/
theorem format_row_columns_witness :
    parseIso (replaceZL
        ((demoFormatMention).timestamp.getD ("2025-01-01T00:00:00")).data)
      = some demoDT
    ∧ (timestampCol ("2025-01-01T00:00:00") demoFormatMention = renderDT demoDT
        ∧ isRenderedForm
            (timestampCol ("2025-01-01T00:00:00") demoFormatMention) = true) :=
  ⟨by decide,
    (format_row_columns ("2025-01-01T00:00:00") demoFormatMention).2.2.1
      demoDT (by decide)⟩
